import Mathlib

/-!
# Verification of the textpipe document/pipeline core

A shallow embedding of the textpipe repository (`textpipe/doc.py`,
`textpipe/pipeline.py`, `textpipe/operation.py`, and the historical
mixin variant under `textpipe/doc/`), together with proofs settling the
spec claims about cleaning, language resolution, annotation caching,
pipeline execution and serialization.

External collaborators (the BeautifulSoup HTML stripper, the cld2 language
detector, spacy models, textacy statistics, key-term rankers) are
parameters of the embedded functions: the theorems quantify over any
collaborator satisfying the stated interface, and witnesses instantiate
them concretely.
-/

namespace Textpipe

/-! ## Python dict as an association list

Python `dict` assignment updates the value in place when the key exists
(keeping insertion order) and appends otherwise; lookup returns the
stored value. -/

/-- Assignment `d[k] = v` for a Python dict modelled as an ordered association list
with unique keys: replace the binding of `k` in place if present, append
otherwise. -/
def dictInsert {α : Type} : List (String × α) → String → α → List (String × α)
  | [], k, v => [(k, v)]
  | p :: rest, k, v => if p.1 = k then (k, v) :: rest else p :: dictInsert rest k v

/-- Lookup `d[k]`: binding of `k`, if any. -/
def dictLookup {α : Type} : List (String × α) → String → Option α
  | [], _ => none
  | p :: rest, k => if p.1 = k then some p.2 else dictLookup rest k

theorem dictLookup_dictInsert_self {α : Type} (d : List (String × α)) (k : String) (v : α) :
    dictLookup (dictInsert d k v) k = some v := by
  induction d with
  | nil => simp [dictInsert, dictLookup]
  | cons p rest ih =>
    by_cases hp : p.1 = k
    · simp [dictInsert, dictLookup, hp]
    · simp [dictInsert, dictLookup, hp, ih]

theorem dictLookup_dictInsert_ne {α : Type} (d : List (String × α)) (k k' : String) (v : α)
    (hne : k' ≠ k) : dictLookup (dictInsert d k v) k' = dictLookup d k' := by
  induction d with
  | nil => simp [dictInsert, dictLookup, Ne.symm hne]
  | cons p rest ih =>
    by_cases hp : p.1 = k
    · simp [dictInsert, dictLookup, hp, Ne.symm hne]
    · by_cases hp' : p.1 = k'
      · simp [dictInsert, dictLookup, hp, hp', hne]
      · simp [dictInsert, dictLookup, hp, hp', ih]

/-- The keys of a dict. -/
def dictKeys {α : Type} (d : List (String × α)) : List String :=
  d.map (fun p => p.1)

/-! ## TextCleaner (`Doc.clean_text`, `textpipe/doc.py` lines 193-218)

The four passes of `clean_text`, operating on `List Char`.  The HTML
stripper (BeautifulSoup `get_text`) is a collaborator parameter. -/

/-- Pass of the ellipsis regex: each U+2026 becomes three ASCII dots. -/
def cleanDotsPass : List Char → List Char
  | [] => []
  | c :: rest =>
      if c = '…' then '.' :: '.' :: '.' :: cleanDotsPass rest
      else c :: cleanDotsPass rest

/-- Character class of the first quote regex: backtick plus curly and
angled single-quote variants. -/
def singleQuoteVariants : List Char := ['`', '‘', '’', '‛', '⸂', '⸃', '⸌', '⸍', '⸜', '⸝']

/-- First quote pass: each quote variant becomes an ASCII apostrophe. -/
def cleanQuotesPass1 (l : List Char) : List Char :=
  l.map (fun c => if c ∈ singleQuoteVariants then '\'' else c)

/-- Second quote pass: a left-to-right scan replacing a low or left
double quote, a doubled apostrophe, or a doubled comma by one ASCII
double quote, following the alternation order of the regex. -/
def cleanQuotesPass2 : List Char → List Char
  | [] => []
  | [c] => if c = '„' ∨ c = '“' then ['"'] else [c]
  | c1 :: c2 :: rest =>
      if c1 = '„' ∨ c1 = '“' then '"' :: cleanQuotesPass2 (c2 :: rest)
      else if (c1 = '\'' ∧ c2 = '\'') ∨ (c1 = ',' ∧ c2 = ',') then
        '"' :: cleanQuotesPass2 rest
      else c1 :: cleanQuotesPass2 (c2 :: rest)

/-- Whitespace matched by the backslash-s class of the whitespace regex
(common whitespace characters). -/
def isPyWs (c : Char) : Bool :=
  c = ' ' ∨ c = '\t' ∨ c = '\n' ∨ c = '\x0d' ∨ c = '\x0b' ∨ c = '\x0c' ∨ c = '\xa0'

/-- Collapse pass of the whitespace regex: every maximal run of
whitespace becomes a single space.  `prevWs` records whether the
previous character was part of a whitespace run already replaced. -/
def collapseWsAux (prevWs : Bool) : List Char → List Char
  | [] => []
  | c :: rest =>
      if isPyWs c then
        if prevWs then collapseWsAux true rest
        else ' ' :: collapseWsAux true rest
      else c :: collapseWsAux false rest

/-- Python `str.strip()`: drop leading and trailing whitespace. -/
def stripWs (l : List Char) : List Char :=
  ((l.dropWhile isPyWs).reverse.dropWhile isPyWs).reverse

/-- The `clean_whitespace` pass: collapse runs, then strip. -/
def cleanWsPass (l : List Char) : List Char :=
  stripWs (collapseWsAux false l)

/-- Embedding of `Doc.clean_text(remove_html, clean_dots, clean_quotes, clean_whitespace)`
from `textpipe/doc.py`.  `stripHtml` is the BeautifulSoup `get_text`
collaborator. -/
def cleanText (stripHtml : String → String) (raw : String)
    (removeHtml cleanDots cleanQuotes cleanWhitespace : Bool) : String :=
  let t1 := if removeHtml then stripHtml raw else raw
  let t2 := if cleanDots then String.mk (cleanDotsPass t1.data) else t1
  let t3 := if cleanQuotes then String.mk (cleanQuotesPass2 (cleanQuotesPass1 t2.data)) else t2
  if cleanWhitespace then String.mk (cleanWsPass t3.data) else t3

/-- Property `Doc.clean`: `clean_text()` with all defaults enabled. -/
def docClean (stripHtml : String → String) (raw : String) : String :=
  cleanText stripHtml raw true true true true

/-! ## `Doc.clean_text` on a possibly-missing raw (`textpipe/doc.py`)

`Doc.__init__` stores `self.raw = raw` unguarded; a `None` raw reaches
the cleaning collaborators, which raise a `TypeError` (`BeautifulSoup`
calls `len(markup)`, `re.sub` rejects a non-string), and with all four
passes disabled the `None` is returned as-is.  `none` models the
Python `None`. -/

/-- Embedding of `Doc.clean_text` of `textpipe/doc.py` on `Doc.raw : Option String`;
`Except` carries the `TypeError` raised by a collaborator on `None`. -/
def docPyCleanText (stripHtml : String → String) (raw : Option String)
    (removeHtml cleanDots cleanQuotes cleanWhitespace : Bool) :
    Except String (Option String) :=
  match raw with
  | none =>
      if removeHtml then
        .error "TypeError: BeautifulSoup cannot parse None"
      else if cleanDots ∨ cleanQuotes ∨ cleanWhitespace then
        .error "TypeError: re.sub expected string or bytes-like object, got None"
      else
        .ok none
  | some s => .ok (some (cleanText stripHtml s removeHtml cleanDots cleanQuotes cleanWhitespace))

/-! ## The `CleanDoc` mixin variant (`textpipe/doc/clean.py`)

`CleanDoc.__init__` stores `self._raw = raw or ""`, so a missing or
empty raw becomes the empty string before cleaning. -/

/-- Guard `raw or ""` of `CleanDoc.__init__`: `None` and the empty
string are falsy. -/
def cleanDocRaw (raw : Option String) : String :=
  match raw with
  | none => ""
  | some s => if s.isEmpty then "" else s

/-- Embedding of `CleanDoc.clean_text` (same four passes as `Doc.clean_text`, applied
to the guarded raw). -/
def cleanDocCleanText (stripHtml : String → String) (raw : Option String)
    (removeHtml cleanDots cleanQuotes cleanWhitespace : Bool) : String :=
  cleanText stripHtml (cleanDocRaw raw) removeHtml cleanDots cleanQuotes cleanWhitespace

/-! ## Language resolution (`textpipe/doc.py` lines 55-134)

`Doc.__init__` stores `self._language = language` and
`self._is_reliable_language = True if language else None`; the
`language` / `is_reliable_language` properties call `detect_language`
(which wraps the external cld2 detector) when the stored language is
falsy / the stored reliability is `None`.  The detector is modelled as
a collaborator `detect : cleaned text → hint → (is_reliable, code)`
standing for the whole of `Doc.detect_language`. -/

/-- Configuration of one `Doc`: the constructor-supplied language (with
Python truthiness: `None` and the empty string are falsy) and the hint
language. -/
structure LangCfg where
  suppliedLanguage : Option String
  hintLanguage : String
deriving DecidableEq, Repr

/-- Python truthiness of an optional string. -/
def optTruthy : Option String → Bool
  | none => false
  | some s => !s.isEmpty

/-- Property `Doc.language`: the supplied language if truthy, else the detected
code. -/
def docLanguage (detect : String → String → Bool × String) (cleanTxt : String)
    (cfg : LangCfg) : String :=
  match cfg.suppliedLanguage with
  | some s => if !s.isEmpty then s else (detect cleanTxt cfg.hintLanguage).2
  | none => (detect cleanTxt cfg.hintLanguage).2

/-- Property `Doc.is_reliable_language`: `True` if a truthy language was
supplied, else the reliability flag of the detector. -/
def docIsReliableLanguage (detect : String → String → Bool × String) (cleanTxt : String)
    (cfg : LangCfg) : Bool :=
  match cfg.suppliedLanguage with
  | some s => if !s.isEmpty then true else (detect cleanTxt cfg.hintLanguage).1
  | none => (detect cleanTxt cfg.hintLanguage).1

/-- The language expression appearing verbatim in `Doc._spacy_doc`
(line 146): `self.language if self.is_reliable_language else
self.hint_language`. -/
def spacyDocLang (detect : String → String → Bool × String) (cleanTxt : String)
    (cfg : LangCfg) : String :=
  if docIsReliableLanguage detect cleanTxt cfg then docLanguage detect cleanTxt cfg
  else cfg.hintLanguage

/-- The same expression in `Doc.find_ents` (line 242). -/
def findEntsLang (detect : String → String → Bool × String) (cleanTxt : String)
    (cfg : LangCfg) : String :=
  if docIsReliableLanguage detect cleanTxt cfg then docLanguage detect cleanTxt cfg
  else cfg.hintLanguage

/-- The same expression in `Doc.generate_word_vectors` (line 533). -/
def generateWordVectorsLang (detect : String → String → Bool × String) (cleanTxt : String)
    (cfg : LangCfg) : String :=
  if docIsReliableLanguage detect cleanTxt cfg then docLanguage detect cleanTxt cfg
  else cfg.hintLanguage

/-- The same expression in `Doc.aggregate_word_vectors` (line 587). -/
def aggregateWordVectorsLang (detect : String → String → Bool × String) (cleanTxt : String)
    (cfg : LangCfg) : String :=
  if docIsReliableLanguage detect cleanTxt cfg then docLanguage detect cleanTxt cfg
  else cfg.hintLanguage

/-- The same expression in `Doc._load_gensim_word2vec_model` (line 615). -/
def loadGensimLang (detect : String → String → Bool × String) (cleanTxt : String)
    (cfg : LangCfg) : String :=
  if docIsReliableLanguage detect cleanTxt cfg then docLanguage detect cleanTxt cfg
  else cfg.hintLanguage

/-- The same expression in `Doc.get_cats` (line 801). -/
def getCatsLang (detect : String → String → Bool × String) (cleanTxt : String)
    (cfg : LangCfg) : String :=
  if docIsReliableLanguage detect cleanTxt cfg then docLanguage detect cleanTxt cfg
  else cfg.hintLanguage

/-- The same expression in `Operation.get_model`
(`textpipe/operation.py` line 27). -/
def operationGetModelLang (detect : String → String → Bool × String) (cleanTxt : String)
    (cfg : LangCfg) : String :=
  if docIsReliableLanguage detect cleanTxt cfg then docLanguage detect cleanTxt cfg
  else cfg.hintLanguage

/-- The definition of the effective language written from the words of
the spec: "the resolved code if reliable, else the hint language",
where a supplied language counts as reliably resolved. -/
def effectiveLanguageSpec (detect : String → String → Bool × String) (cleanTxt : String)
    (cfg : LangCfg) : String :=
  let resolved :=
    match cfg.suppliedLanguage with
    | some s => if !s.isEmpty then (true, s) else detect cleanTxt cfg.hintLanguage
    | none => detect cleanTxt cfg.hintLanguage
  if resolved.1 then resolved.2 else cfg.hintLanguage

/-! ## SpacyParse and the spacy cache (`textpipe/doc.py` lines 136-179)

The annotation is the structured parse an nlp model produces from the
cleaned text; the model itself is a collaborator `String → SpacyParse`.
`Doc._load_spacy_doc` is wrapped in `functools.lru_cache`, which keys
on the literal argument tuple of each call and never binds the
`model_name=None` default: the one-argument call
`self._load_spacy_doc(lang)` made by `_spacy_doc` (line 148) and the
two-argument call `self._load_spacy_doc(lang, model_name)` made by
`find_ents`, `generate_word_vectors`, `aggregate_word_vectors` and
`get_cats` (lines 244, 538, 588, 802) are distinct cache entries even
when `model_name` is `None`.  Exceptions are not cached; the body
mutates `self._spacy_nlps`, and those mutations survive a raised
exception.  `runs` is a ghost log of the actual
`nlp(self.clean_text())` executions, one entry per cache key whose
body ran the model. -/

/-- The structured annotation produced by a language model: tokens and
sentences as (text, character offset) pairs, entities as
(text, label) pairs, categories as (label, probability) pairs. -/
structure SpacyParse where
  tokens : List (String × Nat)
  sents : List (String × Nat)
  ents : List (String × String)
  cats : List (String × Int)
deriving DecidableEq, Repr

/-- A loaded spacy model: cleaned text in, annotation out. -/
def NlpModel : Type := String → SpacyParse

/-- The errors of `Doc._load_spacy_doc` / `Doc._get_default_nlp`. -/
inductive TpErr where
  /-- Message `Default model for language "{lang}" is not available.` -/
  | missingDefault (lang : String)
  /-- Message `Custom model {model_name} is missing.` -/
  | missingCustom (modelName : String)
deriving DecidableEq, Repr

/-- The literal argument tuple of one `_load_spacy_doc` call, as
`functools.lru_cache` keys it: `one lang` is the one-argument call
`self._load_spacy_doc(lang)` of `_spacy_doc`; `two lang modelName` is
the two-argument call `self._load_spacy_doc(lang, model_name)` of the
other extractors.  The default `model_name=None` is not bound into the
key, so `one lang` and `two lang none` are distinct keys. -/
inductive SpacyKey where
  | one (lang : String)
  | two (lang : String) (modelName : Option String)
deriving DecidableEq, Repr

/-- The `lang` the body of `_load_spacy_doc` sees for a call. -/
def SpacyKey.lang : SpacyKey → String
  | .one l => l
  | .two l _ => l

/-- The `model_name` the body of `_load_spacy_doc` sees for a call
(the one-argument shape gets the `None` default). -/
def SpacyKey.model : SpacyKey → Option String
  | .one _ => none
  | .two _ m => m

/-- Mutable state of one `Doc` relevant to annotation loading:
`_spacy_nlps : {lang: {model_id: model}}`, the `lru_cache` of
`_load_spacy_doc` keyed by the literal argument tuple, and the ghost
log of model executions. -/
structure SpacyCache where
  spacyNlps : List (String × List (Option String × NlpModel))
  annCache : List (SpacyKey × SpacyParse)
  runs : List SpacyKey

/-- Lookup in the annotation `lru_cache` (keyed by the literal
argument tuple of the call). -/
def annLookup (cache : List (SpacyKey × SpacyParse))
    (key : SpacyKey) : Option SpacyParse :=
  match cache with
  | [] => none
  | p :: rest => if p.1 = key then some p.2 else annLookup rest key

/-- Lookup of `model_name` among the models loaded for one language. -/
def modelLookup (models : List (Option String × NlpModel)) (modelName : Option String) :
    Option NlpModel :=
  match models with
  | [] => none
  | p :: rest => if p.1 = modelName then some p.2 else modelLookup rest modelName

/-- Lookup of the model dict of one language in `_spacy_nlps`. -/
def nlpsLookup (nlps : List (String × List (Option String × NlpModel))) (lang : String) :
    Option (List (Option String × NlpModel)) :=
  match nlps with
  | [] => none
  | p :: rest => if p.1 = lang then some p.2 else nlpsLookup rest lang

/-- Assignment `self._spacy_nlps[lang][model_name] = m` (dict assignment at both
levels). -/
def nlpsSetModel (modelName : Option String) (m : NlpModel) :
    List (Option String × NlpModel) → List (Option String × NlpModel)
  | [] => [(modelName, m)]
  | q :: qs => if q.1 = modelName then (modelName, m) :: qs else q :: nlpsSetModel modelName m qs

def nlpsSet (nlps : List (String × List (Option String × NlpModel))) (lang : String)
    (modelName : Option String) (m : NlpModel) :
    List (String × List (Option String × NlpModel)) :=
  match nlps with
  | [] => [(lang, [(modelName, m)])]
  | p :: rest =>
      if p.1 = lang then (lang, nlpsSetModel modelName m p.2) :: rest
      else p :: nlpsSet rest lang modelName m

/-- Assignment `self._spacy_nlps[lang] = {}` when `lang` has no entry. -/
def nlpsEnsureLang (nlps : List (String × List (Option String × NlpModel))) (lang : String) :
    List (String × List (Option String × NlpModel)) :=
  match nlpsLookup nlps lang with
  | some _ => nlps
  | none => nlps ++ [(lang, [])]

/-- Embedding of one `_load_spacy_doc` call with its `lru_cache`, keyed
by the literal argument tuple `key`; the body binds
`lang = key.lang` and `model_name = key.model`.
`getDefaultNlp` is `Doc._get_default_nlp` (the spacy loader, itself
`lru_cache`d and hence deterministic; may fail with a missing-default
error).  Returns the outcome together with the post-call state: on an
exception the `lru_cache` gains no entry but mutations of
`_spacy_nlps` made before the raise persist. -/
def loadSpacyDoc (getDefaultNlp : String → Except TpErr NlpModel) (cleanTxt : String)
    (st : SpacyCache) (key : SpacyKey) :
    Except TpErr SpacyParse × SpacyCache :=
  match annLookup st.annCache key with
  | some ann => (.ok ann, st)
  | none =>
    -- `if lang not in self._spacy_nlps or (model_name is None and
    --     model_name not in self._spacy_nlps[lang]):`
    let needDefault : Bool :=
      (nlpsLookup st.spacyNlps key.lang).isNone ||
        ((key.model).isNone &&
          (match nlpsLookup st.spacyNlps key.lang with
           | some models => (modelLookup models none).isNone
           | none => true))
    match (if needDefault then
        -- `self._spacy_nlps[lang] = {}` (only when absent), then
        -- `self._spacy_nlps[lang][None] = self._get_default_nlp(lang)`
        let nlps1 := nlpsEnsureLang st.spacyNlps key.lang
        match getDefaultNlp key.lang with
        | .error e => .error (e, nlps1)
        | .ok d => .ok (nlpsSet nlps1 key.lang none d)
      else .ok st.spacyNlps : Except (TpErr × List (String × List (Option String × NlpModel)))
          (List (String × List (Option String × NlpModel)))) with
    | .error (e, nlps1) => (.error e, { st with spacyNlps := nlps1 })
    | .ok nlps2 =>
      -- `if model_name not in self._spacy_nlps[lang] and model_name is not None:`
      let langModels := (nlpsLookup nlps2 key.lang).getD []
      match key.model with
      | some m =>
          match modelLookup langModels (some m) with
          | none => (.error (.missingCustom m), { st with spacyNlps := nlps2 })
          | some nlp =>
              let ann := nlp cleanTxt
              (.ok ann,
               { spacyNlps := nlps2,
                 annCache := st.annCache ++ [(key, ann)],
                 runs := st.runs ++ [key] })
      | none =>
          match modelLookup langModels none with
          | none =>
              -- unreachable: the default branch just stored `[lang][None]`;
              -- Python would raise `KeyError` here
              (.error (.missingDefault key.lang), { st with spacyNlps := nlps2 })
          | some nlp =>
              let ann := nlp cleanTxt
              (.ok ann,
               { spacyNlps := nlps2,
                 annCache := st.annCache ++ [(key, ann)],
                 runs := st.runs ++ [key] })

/-- A sequence of annotation requests issued against one `Doc` by its
extractors, each with the literal call shape that extractor uses (each
at top level: an exception propagates to the caller and the `Doc`
survives with the mutated state). -/
def processRequests (getDefaultNlp : String → Except TpErr NlpModel) (cleanTxt : String) :
    List SpacyKey → SpacyCache → SpacyCache
  | [], st => st
  | key :: rest, st =>
      processRequests getDefaultNlp cleanTxt rest
        (loadSpacyDoc getDefaultNlp cleanTxt st key).2

/-! ## Feature extractors over the annotation (`textpipe/doc.py`) -/

/-- Property `Doc.words`: `(token.text, token.idx)` for each token of the
annotation. -/
def docWords (ann : SpacyParse) : List (String × Nat) :=
  ann.tokens

/-- Property `Doc.nwords = len(self.words)`. -/
def docNwords (ann : SpacyParse) : Nat :=
  (docWords ann).length

/-- Property `Doc.nsents = len(list(self._spacy_doc.sents))`. -/
def docNsents (ann : SpacyParse) : Nat :=
  ann.sents.length

/-- Method `Doc.find_ents` with default attributes:
`list({(ent.text, ent.label_) for ent in ...})` — a deduplicated list
of the entities of the annotation. -/
def docFindEnts (ann : SpacyParse) : List (String × String) :=
  ann.ents.dedup

/-- The statistics `textacy.TextStats` computes from an annotation. -/
structure TextStats where
  nSyllables : Nat
  fleschReadingEase : ℚ
deriving DecidableEq, Repr

/-- Property `Doc.complexity` (lines 356-372): 100 when the text has zero
syllables, else the Flesch reading-ease score.  `stats` is the textacy
collaborator. -/
def docComplexity (stats : SpacyParse → TextStats) (ann : SpacyParse) : ℚ :=
  if (stats ann).nSyllables = 0 then 100
  else (stats ann).fleschReadingEase

/-- The value error of `Doc.extract_keyterms`, carrying the rejected
ranker and the allowed set it names. -/
inductive KtError where
  | valueError (ranker : String) (allowed : List String)
deriving DecidableEq, Repr

/-- The ranker allow-list of `Doc.extract_keyterms` (line 434). -/
def ktRankers : List String := ["textrank", "sgrank", "scake", "yake"]

/-- Method `Doc.extract_keyterms(ranker, n_terms)` (lines 405-439): empty
documents short-circuit to `[]` before the ranker is validated; an
unknown ranker raises a `ValueError` naming the allowed set; otherwise
the selected ranking collaborator runs on the annotation. -/
def extractKeyterms (rank : String → SpacyParse → Nat → List (String × ℚ))
    (ann : SpacyParse) (ranker : String) (nTerms : Nat) :
    Except KtError (List (String × ℚ)) :=
  if docNwords ann < 1 then .ok []
  else if ranker ∉ ktRankers then .error (.valueError ranker ktRankers)
  else .ok (rank ranker ann nTerms)

/-! ## Pipeline (`textpipe/pipeline.py`)

Step kwargs are JSON-representable values (the pipeline is serialized
with `json.dump`/`json.load`).  Operation classes live in
`textpipe/operation.py`; `Pipeline.__init__` resolves a step name with
`getattr(textpipe.operation, oper_name)`, which raises an
`AttributeError` naming the attribute when the module has no such
attribute.  The registry is modelled as the predicate "the module has
this attribute"; an instantiated operation `oper_cls(**oper_kwargs)` is
represented by the kwargs it was constructed with, its behaviour being
supplied by a collaborator `opRun` at call time. -/

/-- A JSON value usable as an operation kwarg. -/
inductive JVal where
  | str (s : String)
  | int (n : Int)
  | bool (b : Bool)
  | null
deriving DecidableEq, Repr

/-- A kwargs dict with JSON values. -/
abbrev Kwargs := List (String × JVal)

/-- One entry of the `steps` argument of `Pipeline.__init__`: a bare
string, a 1-tuple `(name,)`, or a pair `(name, kwargs)`. -/
inductive StepInput where
  | str (name : String)
  | tup1 (name : String)
  | tup2 (name : String) (kwargs : Kwargs)
deriving DecidableEq, Repr

/-- The normalization performed by the `__init__` loop:
`oper_name = oper` or `oper[0]`; `oper_kwargs = oper[1] if len(oper) > 1
else {}`. -/
def normalizeStep : StepInput → String × Kwargs
  | .str n => (n, [])
  | .tup1 n => (n, [])
  | .tup2 n k => (n, k)

/-- The declarative state of a constructed `Pipeline`: the normalized
`steps`, the `_operations` dict (each instantiated operation
represented by its constructor kwargs), and the public configuration
fields. -/
structure PipelineState where
  steps : List (String × Kwargs)
  operations : List (String × Kwargs)
  language : Option String
  hintLanguage : Option String
  kwargs : Kwargs
deriving DecidableEq, Repr

/-- The `for oper in steps` loop of `Pipeline.__init__`: normalize,
append to `self.steps`, resolve the class by attribute lookup (raising
an `AttributeError` that names the missing attribute), instantiate into
`self._operations` (a repeated name overwrites the previous
instance). -/
def pipelineInitLoop (registry : String → Bool) :
    List StepInput → PipelineState → Except String PipelineState
  | [], st => .ok st
  | s :: rest, st =>
      let n := (normalizeStep s).1
      let k := (normalizeStep s).2
      let st1 := { st with steps := st.steps ++ [(n, k)] }
      if registry n then
        pipelineInitLoop registry rest
          { st1 with operations := dictInsert st1.operations n k }
      else
        .error n

/-- Embedding of `Pipeline.__init__(steps, language, hint_language, **kwargs)`
(model loading into the shared spacy registry is independent of the
declarative state and handled by the `SpacyCache` embedding). -/
def pipelineInit (registry : String → Bool) (steps : List StepInput)
    (language hintLanguage : Option String) (kwargs : Kwargs) :
    Except String PipelineState :=
  pipelineInitLoop registry steps
    { steps := [], operations := [], language := language,
      hintLanguage := hintLanguage, kwargs := kwargs }

/-- The context dict accumulated by `Pipeline.__call__`. -/
abbrev Context (V : Type) := List (String × V)

/-- One operation invocation recorded by the instrumented call loop:
the step name, the constructor kwargs of the dispatched instance
(`self._operations[oper]`), the context dict passed as `context=data`,
the per-step `settings`, and the produced result. -/
structure CallEvent (V : Type) where
  name : String
  ctorKwargs : Option Kwargs
  context : Context V
  settings : Kwargs
  result : V
deriving DecidableEq, Repr

/-- The `for oper, settings in self.steps` loop of `Pipeline.__call__`:
`data[oper] = self._operations[oper](doc, context=data,
settings=settings)`.  `opRun name ctorKwargs context settings` is the
collaborator standing for the call of the instantiated operation on the
per-call `Doc`. -/
def pipelineCallLoop {V : Type} (opRun : String → Option Kwargs → Context V → Kwargs → V)
    (operations : List (String × Kwargs)) :
    List (String × Kwargs) → Context V → Context V
  | [], data => data
  | (n, settings) :: rest, data =>
      pipelineCallLoop opRun operations rest
        (dictInsert data n (opRun n (dictLookup operations n) data settings))

/-- Embedding of `Pipeline.__call__(raw)`: run the steps in declared order starting
from an empty context dict. -/
def pipelineCall {V : Type} (opRun : String → Option Kwargs → Context V → Kwargs → V)
    (p : PipelineState) : Context V :=
  pipelineCallLoop opRun p.operations p.steps []

/-- Instrumented variant of the call loop: same fold, also returning
the list of operation invocations in execution order. -/
def pipelineCallTraceLoop {V : Type} (opRun : String → Option Kwargs → Context V → Kwargs → V)
    (operations : List (String × Kwargs)) :
    List (String × Kwargs) → Context V → List (CallEvent V) × Context V
  | [], data => ([], data)
  | (n, settings) :: rest, data =>
      let ck := dictLookup operations n
      let r := opRun n ck data settings
      let rec' := pipelineCallTraceLoop opRun operations rest (dictInsert data n r)
      (⟨n, ck, data, settings, r⟩ :: rec'.1, rec'.2)

/-- Instrumented `Pipeline.__call__`. -/
def pipelineCallTrace {V : Type} (opRun : String → Option Kwargs → Context V → Kwargs → V)
    (p : PipelineState) : List (CallEvent V) × Context V :=
  pipelineCallTraceLoop opRun p.operations p.steps []

/-- Replay of a list of invocations onto a context dict (the result of
each event assigned under its name, in order). -/
def applyEvents {V : Type} (init : Context V) : List (CallEvent V) → Context V
  | [] => init
  | e :: rest => applyEvents (dictInsert init e.name e.result) rest

/-- The value of the last pair carrying key `n` (last write wins). -/
def lastAssoc {α : Type} (l : List (String × α)) (n : String) : Option α :=
  l.foldl (fun acc p => if p.1 = n then some p.2 else acc) none

/-- The result of the last event carrying name `n`. -/
def lastEventResult {V : Type} (es : List (CallEvent V)) (n : String) : Option V :=
  lastAssoc (es.map (fun e => (e.name, e.result))) n

/-- Key order of a Python dict built by successive assignments:
first-occurrence order, duplicates collapsed. -/
def pyDictKeys (names : List String) : List String :=
  names.foldl (fun acc n => if n ∈ acc then acc else acc ++ [n]) []

/-- The kwargs of the last occurrence of `n` in the declared steps. -/
def lastKwargs (steps : List (String × Kwargs)) (n : String) : Option Kwargs :=
  lastAssoc steps n

/-! ### Serialization (`Pipeline.save` / `Pipeline.load`) -/

/-- The JSON document written by `Pipeline.save`: all public attributes
of the pipeline — `steps`, `language`, `hint_language`, `kwargs`
(`_operations`, `_spacy_nlps`, `_gensim_vectors` are private and not
serialized). -/
structure SavedConfig where
  steps : List (String × Kwargs)
  language : Option String
  hintLanguage : Option String
  kwargs : Kwargs
deriving DecidableEq, Repr

/-- Embedding of `Pipeline.save`: serialize the public attributes. -/
def pipelineSave (p : PipelineState) : SavedConfig :=
  { steps := p.steps, language := p.language,
    hintLanguage := p.hintLanguage, kwargs := p.kwargs }

/-- Embedding of `Pipeline.load` after `json.load`: each serialized step deserializes as
a two-element list `[name, kwargs]` (JSON has no tuples), and
`Pipeline.from_dict` merges the saved extra kwargs back and calls
`Pipeline(**dict_representation)`, re-resolving every operation from
the registry. -/
def pipelineLoad (registry : String → Bool) (s : SavedConfig) :
    Except String PipelineState :=
  pipelineInit registry (s.steps.map (fun p => StepInput.tup2 p.1 p.2))
    s.language s.hintLanguage s.kwargs

/-- The attributes of the module `textpipe/operation.py` that
`getattr` can resolve (its classes and the imported exception). -/
def textpipeOperationAttrs : List String :=
  ["TextpipeMissingModelException", "Operation", "Language", "CleanText", "Raw", "NWords",
   "Words", "WordCounts", "Complexity", "Sentences", "NSentences", "Entities", "Sentiment",
   "Keyterms", "MinHash", "WordVectors", "DocumentVector", "GensimDocumentEmbedding",
   "GensimTextRank", "LeadSentences", "Categories"]

/-- The concrete registry of `textpipe/operation.py`. -/
def textpipeRegistry (n : String) : Bool :=
  textpipeOperationAttrs.contains n

/-! ### Length behaviour of the cleaning passes -/

theorem length_mk (l : List Char) : (String.mk l).length = l.length := rfl

theorem cleanDotsPass_length (l : List Char) :
    (cleanDotsPass l).length = l.length + 2 * l.count '…' := by
  induction l with
  | nil => simp [cleanDotsPass]
  | cons c rest ih =>
    by_cases hc : c = '…'
    · subst hc
      simp [cleanDotsPass, ih, List.count_cons]
      ring
    · simp [cleanDotsPass, hc, ih, List.count_cons, Ne.symm hc]
      ring

theorem cleanQuotesPass1_length (l : List Char) :
    (cleanQuotesPass1 l).length = l.length := by
  simp [cleanQuotesPass1]

theorem cleanQuotesPass2_length (l : List Char) :
    (cleanQuotesPass2 l).length ≤ l.length := by
  induction l using cleanQuotesPass2.induct
  all_goals simp_all only [cleanQuotesPass2, if_true, if_false, ite_true, ite_false,
    List.length_cons, List.length_singleton, List.length_nil]
  all_goals omega

theorem collapseWsAux_length (b : Bool) (l : List Char) :
    (collapseWsAux b l).length ≤ l.length := by
  induction l generalizing b with
  | nil => simp [collapseWsAux]
  | cons c rest ih =>
    by_cases hc : isPyWs c
    · cases b with
      | true =>
        simp only [collapseWsAux, hc, if_true]
        exact Nat.le_succ_of_le (ih true)
      | false =>
        simp only [collapseWsAux, hc, if_true, List.length_cons]
        exact Nat.succ_le_succ (ih true)
    · simp only [collapseWsAux, hc, if_false, List.length_cons]
      exact Nat.succ_le_succ (ih false)

theorem length_dropWhile_le {α : Type} (p : α → Bool) (l : List α) :
    (l.dropWhile p).length ≤ l.length := by
  induction l with
  | nil => simp [List.dropWhile]
  | cons c rest ih =>
    by_cases hc : p c
    · simp only [List.dropWhile, hc]
      exact Nat.le_succ_of_le ih
    · simp [List.dropWhile, hc]

theorem stripWs_length (l : List Char) : (stripWs l).length ≤ l.length := by
  unfold stripWs
  calc ((l.dropWhile isPyWs).reverse.dropWhile isPyWs).reverse.length
      = ((l.dropWhile isPyWs).reverse.dropWhile isPyWs).length := by
        simp
    _ ≤ (l.dropWhile isPyWs).reverse.length := length_dropWhile_le _ _
    _ = (l.dropWhile isPyWs).length := by simp
    _ ≤ l.length := length_dropWhile_le _ _

theorem cleanWsPass_length (l : List Char) : (cleanWsPass l).length ≤ l.length := by
  unfold cleanWsPass
  exact le_trans (stripWs_length _) (collapseWsAux_length false l)

/-- Length of the fully enabled cleaning chain, in terms of the
ellipses present in the HTML-stripped text: the ellipsis pass adds two
characters per `…`, every other pass is non-expanding. -/
theorem docClean_length_bound (stripHtml : String → String) (raw : String) :
    (docClean stripHtml raw).length ≤
      (stripHtml raw).length + 2 * ((stripHtml raw).data.count '…') := by
  unfold docClean cleanText
  simp only [if_true]
  calc (String.mk (cleanWsPass
          (String.mk (cleanQuotesPass2 (cleanQuotesPass1
            (String.mk (cleanDotsPass (stripHtml raw).data)).data))).data)).length
      = (cleanWsPass (cleanQuotesPass2 (cleanQuotesPass1
          (cleanDotsPass (stripHtml raw).data)))).length := rfl
    _ ≤ (cleanQuotesPass2 (cleanQuotesPass1 (cleanDotsPass (stripHtml raw).data))).length :=
        cleanWsPass_length _
    _ ≤ (cleanQuotesPass1 (cleanDotsPass (stripHtml raw).data)).length :=
        cleanQuotesPass2_length _
    _ = (cleanDotsPass (stripHtml raw).data).length := cleanQuotesPass1_length _
    _ = (stripHtml raw).data.length + 2 * ((stripHtml raw).data.count '…') :=
        cleanDotsPass_length _
    _ = (stripHtml raw).length + 2 * ((stripHtml raw).data.count '…') := rfl

/-! ## C7 — cleaning and text length -/

/-- C7 counterexample: with every cleaning pass enabled and an HTML
stripper that is the identity on plain text (BeautifulSoup `get_text`
on markup-free input), the one-character raw text `…` cleans to the
three-character `...`, so `len(clean_text) <= len(raw_text)` fails. -/
theorem cleanText_expands_on_ellipsis :
    ¬ ((cleanText id "…" true true true true).length ≤ ("…" : String).length) := by
  decide

/-- C7 (amended): with all four passes enabled, the cleaned text is no
longer than the raw text whenever the HTML stripper is non-expanding
and the stripped text contains no `…` (each `…` grows the text by two
characters; no other pass expands). -/
theorem cleanText_length_le (stripHtml : String → String)
    (hStrip : ∀ s, (stripHtml s).length ≤ s.length) (raw : String)
    (hNoEllipsis : '…' ∉ (stripHtml raw).data) :
    (cleanText stripHtml raw true true true true).length ≤ raw.length := by
  have h := docClean_length_bound stripHtml raw
  rw [List.count_eq_zero_of_not_mem hNoEllipsis] at h
  simpa [docClean] using le_trans h (by simpa using hStrip raw)

/-- Witness for C7 (amended) at `stripHtml = id`, `raw = "a  <b"`. -/
theorem cleanText_length_le_witness :
    (∀ s : String, (id s : String).length ≤ s.length) ∧
      ('…' ∉ (id "a  <b" : String).data) ∧
      (cleanText id "a  <b" true true true true).length ≤ ("a  <b" : String).length :=
  ⟨fun _ => le_refl _, by decide,
    cleanText_length_le id (fun _ => le_refl _) "a  <b" (by decide)⟩

/-! ## C9 — missing or empty raw input -/

/-- Evaluation of `clean_text` on the empty string: the empty string,
for every flag combination, whenever the HTML stripper maps the empty
string to itself. -/
theorem cleanText_empty (stripHtml : String → String) (hStrip : stripHtml "" = "")
    (rh cd cq cw : Bool) :
    cleanText stripHtml "" rh cd cq cw = "" := by
  cases rh <;> cases cd <;> cases cq <;> cases cw <;>
    simp [cleanText, hStrip, cleanDotsPass, cleanQuotesPass1, cleanQuotesPass2,
      cleanWsPass, collapseWsAux, stripWs, List.dropWhile]

/-- C9 counterexample: in `textpipe/doc.py`, a `Doc` built from `None`
raises from `clean_text` (with `remove_html` enabled, BeautifulSoup
rejects `None`), contradicting "never raises" for missing raw input. -/
theorem docPyCleanText_none_raises :
    docPyCleanText id none true true true true =
      Except.error "TypeError: BeautifulSoup cannot parse None" := rfl

/-- C9 (amended): for a `Doc` of `textpipe/doc.py` built from the empty
string, cleaning yields the empty string and never raises, for every
combination of cleaning flags; only the `CleanDoc` variant
(`textpipe/doc/clean.py`) guards a `None` raw with `raw or ""`, where
both `None` and the empty string clean to the empty string. -/
theorem cleaning_empty_input (stripHtml : String → String) (hStrip : stripHtml "" = "")
    (rh cd cq cw : Bool) :
    docPyCleanText stripHtml (some "") rh cd cq cw = .ok (some "") ∧
    cleanDocCleanText stripHtml none rh cd cq cw = "" ∧
    cleanDocCleanText stripHtml (some "") rh cd cq cw = "" := by
  refine ⟨?_, ?_, ?_⟩ <;>
    simp [docPyCleanText, cleanDocCleanText, cleanDocRaw, cleanText_empty stripHtml hStrip,
      String.isEmpty]

/-- Witness for C9 (amended) at `stripHtml = id` with all passes
enabled. -/
theorem cleaning_empty_input_witness :
    (id "" : String) = "" ∧
      (docPyCleanText id (some "") true true true true = .ok (some "") ∧
       cleanDocCleanText id none true true true true = "" ∧
       cleanDocCleanText id (some "") true true true true = "") :=
  ⟨rfl, cleaning_empty_input id rfl true true true true⟩

/-! ## C2 — every downstream operation uses the effective language -/

/-- C2: the language each downstream operation computes — annotation
loading (`_spacy_doc`), entity extraction (`find_ents`), word vectors
(`generate_word_vectors`), document vectors
(`aggregate_word_vectors`), gensim embeddings
(`_load_gensim_word2vec_model`), categories (`get_cats`), and the
operation-level model dispatch (`Operation.get_model`) — is the
effective language of the spec: the resolved code when detection was
reliable (a supplied language counts as reliably resolved), else the
hint language. -/
theorem downstream_ops_use_effective_language
    (detect : String → String → Bool × String) (cleanTxt : String) (cfg : LangCfg) :
    spacyDocLang detect cleanTxt cfg = effectiveLanguageSpec detect cleanTxt cfg ∧
    findEntsLang detect cleanTxt cfg = effectiveLanguageSpec detect cleanTxt cfg ∧
    generateWordVectorsLang detect cleanTxt cfg = effectiveLanguageSpec detect cleanTxt cfg ∧
    aggregateWordVectorsLang detect cleanTxt cfg = effectiveLanguageSpec detect cleanTxt cfg ∧
    loadGensimLang detect cleanTxt cfg = effectiveLanguageSpec detect cleanTxt cfg ∧
    getCatsLang detect cleanTxt cfg = effectiveLanguageSpec detect cleanTxt cfg ∧
    operationGetModelLang detect cleanTxt cfg = effectiveLanguageSpec detect cleanTxt cfg := by
  have key : spacyDocLang detect cleanTxt cfg = effectiveLanguageSpec detect cleanTxt cfg := by
    unfold spacyDocLang effectiveLanguageSpec docIsReliableLanguage docLanguage
    cases hc : cfg.suppliedLanguage with
    | none => by_cases hr : (detect cleanTxt cfg.hintLanguage).1 <;> simp [hr]
    | some s =>
      by_cases hs : s.isEmpty <;>
        by_cases hr : (detect cleanTxt cfg.hintLanguage).1 <;> simp [hs, hr]
  exact ⟨key, key, key, key, key, key, key⟩

/-- Witness for C2 at a concrete detector, text and configuration. -/
theorem downstream_ops_use_effective_language_witness :
    spacyDocLang (fun _ _ => (false, "un")) "" ⟨none, "en"⟩ =
      effectiveLanguageSpec (fun _ _ => (false, "un")) "" ⟨none, "en"⟩ :=
  (downstream_ops_use_effective_language (fun _ _ => (false, "un")) "" ⟨none, "en"⟩).1

/-! ## C6 — key-term ranker validation -/

/-- C6 counterexample: on a zero-word document, `extract_keyterms`
short-circuits to `[]` *before* validating the ranker, so an
out-of-allow-list ranker does not raise there, so the claimed "raises
for every Document" fails on the empty document. -/
theorem extract_keyterms_empty_doc_skips_validation :
    ("bogus" ∉ ktRankers) ∧
      extractKeyterms (fun _ _ _ => []) ⟨[], [], [], []⟩ "bogus" 10 = Except.ok [] := by
  exact ⟨by decide, rfl⟩

/-- C6 (amended): on a document with at least one word, a ranker
outside the allow-list raises a value error naming the allowed set
`["textrank", "sgrank", "scake", "yake"]`; a zero-word document returns
the empty list for any ranker, valid or not. -/
theorem extract_keyterms_ranker_validation
    (rank : String → SpacyParse → Nat → List (String × ℚ)) (ann : SpacyParse)
    (ranker : String) (nTerms : Nat) (hr : ranker ∉ ktRankers) :
    extractKeyterms rank ann ranker nTerms =
      if docNwords ann = 0 then .ok []
      else .error (.valueError ranker ktRankers) := by
  unfold extractKeyterms
  by_cases h : docNwords ann = 0
  · simp [h]
  · simp [h, Nat.lt_one_iff, hr]

/-- Witness for C6 (amended) on a one-token document and the ranker
`"bogus"`. -/
theorem extract_keyterms_ranker_validation_witness :
    ("bogus" ∉ ktRankers) ∧
      extractKeyterms (fun _ _ _ => []) ⟨[("word", 0)], [], [], []⟩ "bogus" 10 =
        if docNwords ⟨[("word", 0)], [], [], []⟩ = 0 then .ok []
        else .error (.valueError "bogus" ktRankers) :=
  ⟨by decide,
    extract_keyterms_ranker_validation (fun _ _ _ => []) ⟨[("word", 0)], [], [], []⟩
      "bogus" 10 (by decide)⟩

/-! ## C8 — properties of the empty document -/

/-- C8: for a `Doc` built from the empty string — with the HTML
stripper empty on empty input, the nlp model producing the empty
annotation on empty text, and textacy reporting zero syllables there —
`nwords` is 0, `nsents` is 0, `ents` is `[]`, `complexity` is exactly
100 (the zero-syllable special case), and `extract_keyterms()` (default
ranker, default `n_terms`) is `[]`; none of these raise. -/
theorem empty_doc_properties (stripHtml : String → String)
    (nlp : String → SpacyParse) (stats : SpacyParse → TextStats)
    (rank : String → SpacyParse → Nat → List (String × ℚ))
    (hStrip : stripHtml "" = "")
    (hNlp : nlp "" = ⟨[], [], [], []⟩)
    (hStats : (stats ⟨[], [], [], []⟩).nSyllables = 0) :
    docNwords (nlp (docClean stripHtml "")) = 0 ∧
    docNsents (nlp (docClean stripHtml "")) = 0 ∧
    docFindEnts (nlp (docClean stripHtml "")) = [] ∧
    docComplexity stats (nlp (docClean stripHtml "")) = 100 ∧
    extractKeyterms rank (nlp (docClean stripHtml "")) "textrank" 10 = .ok [] := by
  have hclean : docClean stripHtml "" = "" := cleanText_empty stripHtml hStrip true true true true
  rw [hclean, hNlp]
  refine ⟨rfl, rfl, rfl, ?_, rfl⟩
  unfold docComplexity
  rw [hStats]
  simp

/-- Witness for C8 with concrete collaborators. -/
theorem empty_doc_properties_witness :
    ((id "" : String) = "" ∧
      (fun _ : String => (⟨[], [], [], []⟩ : SpacyParse)) "" = ⟨[], [], [], []⟩ ∧
      ((fun _ : SpacyParse => (⟨0, 50⟩ : TextStats)) (⟨[], [], [], []⟩ : SpacyParse)).nSyllables
        = 0) ∧
    (docNwords ((fun _ : String => (⟨[], [], [], []⟩ : SpacyParse)) (docClean id "")) = 0 ∧
     docNsents ((fun _ : String => (⟨[], [], [], []⟩ : SpacyParse)) (docClean id "")) = 0 ∧
     docFindEnts ((fun _ : String => (⟨[], [], [], []⟩ : SpacyParse)) (docClean id "")) = [] ∧
     docComplexity (fun _ => (⟨0, 50⟩ : TextStats))
        ((fun _ : String => (⟨[], [], [], []⟩ : SpacyParse)) (docClean id "")) = 100 ∧
     extractKeyterms (fun _ _ _ => [])
        ((fun _ : String => (⟨[], [], [], []⟩ : SpacyParse)) (docClean id ""))
        "textrank" 10 = .ok []) :=
  ⟨⟨rfl, rfl, rfl⟩,
    empty_doc_properties id (fun _ => ⟨[], [], [], []⟩) (fun _ => ⟨0, 50⟩)
      (fun _ _ _ => []) rfl rfl rfl⟩

/-! ## C1 — how often the annotation is built per (language, model) -/

theorem annLookup_append (c d : List (SpacyKey × SpacyParse)) (key : SpacyKey) :
    annLookup (c ++ d) key =
      match annLookup c key with
      | some a => some a
      | none => annLookup d key := by
  induction c with
  | nil => simp [annLookup]
  | cons p rest ih => by_cases hp : p.1 = key <;> simp [annLookup, hp, ih]

/-- Evaluation of `_load_spacy_doc` on an `lru_cache` hit: the cached
annotation is returned and nothing changes. -/
theorem loadSpacyDoc_hit (gdn : String → Except TpErr NlpModel) (cleanTxt : String)
    (st : SpacyCache) (key : SpacyKey) (ann : SpacyParse)
    (h : annLookup st.annCache key = some ann) :
    loadSpacyDoc gdn cleanTxt st key = (.ok ann, st) := by
  unfold loadSpacyDoc
  rw [h]

/-- The three possible outcomes of one `_load_spacy_doc` call: a cache
hit for its literal argument tuple (unchanged state), an exception
(only `_spacy_nlps` mutated, nothing cached, no model run), or a fresh
annotation (cached under the argument tuple and logged as one model
execution). -/
theorem loadSpacyDoc_cases (gdn : String → Except TpErr NlpModel) (cleanTxt : String)
    (st : SpacyCache) (key : SpacyKey) :
    (∃ ann, annLookup st.annCache key = some ann ∧
        loadSpacyDoc gdn cleanTxt st key = (.ok ann, st)) ∨
    (annLookup st.annCache key = none ∧
      ((∃ e nlps', loadSpacyDoc gdn cleanTxt st key =
          (.error e, { st with spacyNlps := nlps' })) ∨
       (∃ ann nlps', loadSpacyDoc gdn cleanTxt st key =
          (.ok ann,
            { spacyNlps := nlps',
              annCache := st.annCache ++ [(key, ann)],
              runs := st.runs ++ [key] })))) := by
  cases hl : annLookup st.annCache key with
  | some ann =>
    exact Or.inl ⟨ann, rfl, loadSpacyDoc_hit gdn cleanTxt st key ann hl⟩
  | none =>
    refine Or.inr ⟨rfl, ?_⟩
    cases key with
    | one lang =>
      simp only [loadSpacyDoc, SpacyKey.lang, SpacyKey.model, hl]
      split
      · rename_i e nlps1 _
        exact Or.inl ⟨e, nlps1, rfl⟩
      · rename_i nlps2 _
        cases hm : modelLookup ((nlpsLookup nlps2 lang).getD []) none with
        | none => exact Or.inl ⟨.missingDefault lang, nlps2, rfl⟩
        | some nlp => exact Or.inr ⟨nlp cleanTxt, nlps2, rfl⟩
    | two lang mn =>
      cases mn with
      | some m =>
        simp only [loadSpacyDoc, SpacyKey.lang, SpacyKey.model, hl]
        split
        · rename_i e nlps1 _
          exact Or.inl ⟨e, nlps1, rfl⟩
        · rename_i nlps2 _
          cases hm : modelLookup ((nlpsLookup nlps2 lang).getD []) (some m) with
          | none => exact Or.inl ⟨.missingCustom m, nlps2, rfl⟩
          | some nlp => exact Or.inr ⟨nlp cleanTxt, nlps2, rfl⟩
      | none =>
        simp only [loadSpacyDoc, SpacyKey.lang, SpacyKey.model, hl]
        split
        · rename_i e nlps1 _
          exact Or.inl ⟨e, nlps1, rfl⟩
        · rename_i nlps2 _
          cases hm : modelLookup ((nlpsLookup nlps2 lang).getD []) none with
          | none => exact Or.inl ⟨.missingDefault lang, nlps2, rfl⟩
          | some nlp => exact Or.inr ⟨nlp cleanTxt, nlps2, rfl⟩

/-- One `_load_spacy_doc` call preserves the cache invariant: the run
log is duplicate-free and every argument tuple ever run is cached. -/
theorem loadSpacyDoc_preserves_inv (gdn : String → Except TpErr NlpModel)
    (cleanTxt : String) (st : SpacyCache) (key : SpacyKey)
    (hnd : st.runs.Nodup)
    (hsub : ∀ k ∈ st.runs, (annLookup st.annCache k).isSome) :
    (loadSpacyDoc gdn cleanTxt st key).2.runs.Nodup ∧
    ∀ k ∈ (loadSpacyDoc gdn cleanTxt st key).2.runs,
      (annLookup (loadSpacyDoc gdn cleanTxt st key).2.annCache k).isSome := by
  rcases loadSpacyDoc_cases gdn cleanTxt st key with
    ⟨ann, _, heq⟩ | ⟨hl, ⟨e, nlps', heq⟩ | ⟨ann, nlps', heq⟩⟩
  · rw [heq]; exact ⟨hnd, hsub⟩
  · rw [heq]; exact ⟨hnd, hsub⟩
  · rw [heq]
    have hnotin : key ∉ st.runs := by
      intro hmem
      have := hsub _ hmem
      rw [hl] at this
      simp at this
    constructor
    · simpa [List.nodup_append] using ⟨hnd, hnotin⟩
    · intro k hk
      rw [annLookup_append]
      rcases List.mem_append.1 hk with hk | hk
      · have := hsub k hk
        cases hh : annLookup st.annCache k with
        | none => rw [hh] at this; simp at this
        | some a => simp
      · have hkey : k = key := by simpa using hk
        subst hkey
        rw [hl]
        simp [annLookup]

/-- The invariant holds after any request sequence starting from a
fresh run log. -/
theorem processRequests_inv (gdn : String → Except TpErr NlpModel) (cleanTxt : String)
    (reqs : List SpacyKey) (st : SpacyCache)
    (hnd : st.runs.Nodup)
    (hsub : ∀ k ∈ st.runs, (annLookup st.annCache k).isSome) :
    (processRequests gdn cleanTxt reqs st).runs.Nodup ∧
    ∀ k ∈ (processRequests gdn cleanTxt reqs st).runs,
      (annLookup (processRequests gdn cleanTxt reqs st).annCache k).isSome := by
  induction reqs generalizing st with
  | nil => exact ⟨hnd, hsub⟩
  | cons r rest ih =>
    obtain ⟨hnd', hsub'⟩ := loadSpacyDoc_preserves_inv gdn cleanTxt st r hnd hsub
    simpa [processRequests] using ih _ hnd' hsub'

theorem countP_le_one_of_nodup {α : Type} [DecidableEq α] {l : List α}
    (h : l.Nodup) (k : α) : l.countP (fun x => x = k) ≤ 1 := by
  induction l with
  | nil => simp
  | cons b rest ih =>
    obtain ⟨hb, hr⟩ := List.nodup_cons.1 h
    by_cases hbk : b = k
    · subst hbk
      have h0 : rest.countP (fun x => x = b) = 0 := by
        rw [List.countP_eq_zero]
        intro a ha
        simp only [decide_eq_true_eq]
        rintro rfl
        exact hb ha
      rw [List.countP_cons]
      simp [h0]
    · rw [List.countP_cons]
      simp [hbk, ih hr]

theorem countP_le_countP {α : Type} (l : List α) (p q : α → Bool)
    (h : ∀ x ∈ l, p x = true → q x = true) : l.countP p ≤ l.countP q := by
  induction l with
  | nil => simp
  | cons x rest ih =>
    rw [List.countP_cons, List.countP_cons]
    have hr := ih (fun y hy hp => h y (List.mem_cons_of_mem x hy) hp)
    by_cases hx : p x = true
    · rw [if_pos hx, if_pos (h x (List.mem_cons_self x rest) hx)]
      omega
    · rw [if_neg hx]
      by_cases hq : q x = true
      · rw [if_pos hq]
        omega
      · rw [if_neg hq]
        omega

theorem countP_le_add_two {α : Type} (l : List α) (p q r : α → Bool)
    (h : ∀ x ∈ l, p x = true → q x = true ∨ r x = true) :
    l.countP p ≤ l.countP q + l.countP r := by
  induction l with
  | nil => simp
  | cons x rest ih =>
    rw [List.countP_cons, List.countP_cons, List.countP_cons]
    have hrec := ih (fun y hy hp => h y (List.mem_cons_of_mem x hy) hp)
    by_cases hx : p x = true
    · rcases h x (List.mem_cons_self x rest) hx with hq | hrr
      · rw [if_pos hx, if_pos hq]
        by_cases h2 : r x = true
        · rw [if_pos h2]; omega
        · rw [if_neg h2]; omega
      · rw [if_pos hx, if_pos hrr]
        by_cases h2 : q x = true
        · rw [if_pos h2]; omega
        · rw [if_neg h2]; omega
    · rw [if_neg hx]
      by_cases h2 : q x = true
      · rw [if_pos h2]
        by_cases h3 : r x = true
        · rw [if_pos h3]; omega
        · rw [if_neg h3]; omega
      · rw [if_neg h2]
        by_cases h3 : r x = true
        · rw [if_pos h3]; omega
        · rw [if_neg h3]; omega

/-- C1 counterexample: on one fresh `Doc`, requesting the default
annotation first through the one-argument call of `_spacy_doc` (the
path of `nwords`, `nsents`, `words`, `complexity`) and then through
the two-argument call of `find_ents` (the path of `ents`, word and
document vectors, categories) misses the `lru_cache` both times — the
literal argument tuples differ — so the model runs twice for the same
(language, default model) pair, refuting "built exactly once no matter
how many extractors request it". -/
theorem annotation_built_twice_for_default_model :
    ((processRequests (fun _ => .ok (fun _ => ⟨[], [], [], []⟩)) ""
        [SpacyKey.one "en", SpacyKey.two "en" none] ⟨[], [], []⟩).runs =
      [SpacyKey.one "en", SpacyKey.two "en" none]) ∧
    ((processRequests (fun _ => .ok (fun _ => ⟨[], [], [], []⟩)) ""
        [SpacyKey.one "en", SpacyKey.two "en" none] ⟨[], [], []⟩).runs.countP
      (fun k => (SpacyKey.lang k, SpacyKey.model k) = ("en", none))) = 2 :=
  ⟨rfl, rfl⟩

/-- C1 (amended): over any sequence of annotation requests issued
against one fresh `Doc`, the nlp model runs at most once per literal
`lru_cache` key, hence at most once per (language, custom model) pair
and at most twice per (language, default model) pair — once for the
one-argument call shape of `_spacy_doc` and once for the two-argument
shape of the other extractors; and a repeated request with the same
call shape returns the cached annotation with no state change and no
new model execution. -/
theorem annotation_built_once_per_call_shape (gdn : String → Except TpErr NlpModel)
    (cleanTxt : String) (reqs : List SpacyKey) (st0 : SpacyCache)
    (h0 : st0.runs = []) :
    (∀ k : SpacyKey,
        ((processRequests gdn cleanTxt reqs st0).runs.countP (fun x => x = k)) ≤ 1) ∧
    (∀ (lang m : String),
        ((processRequests gdn cleanTxt reqs st0).runs.countP
          (fun k => (SpacyKey.lang k, SpacyKey.model k) = (lang, some m))) ≤ 1) ∧
    (∀ lang : String,
        ((processRequests gdn cleanTxt reqs st0).runs.countP
          (fun k => (SpacyKey.lang k, SpacyKey.model k) = (lang, none))) ≤ 2) ∧
    (∀ (st st' : SpacyCache) (key : SpacyKey) (ann : SpacyParse),
        loadSpacyDoc gdn cleanTxt st key = (.ok ann, st') →
        loadSpacyDoc gdn cleanTxt st' key = (.ok ann, st')) := by
  have hinv := processRequests_inv gdn cleanTxt reqs st0
    (by rw [h0]; exact List.nodup_nil) (by rw [h0]; intro k hk; simp at hk)
  refine ⟨fun k => countP_le_one_of_nodup hinv.1 k, ?_, ?_, ?_⟩
  · intro lang m
    calc (processRequests gdn cleanTxt reqs st0).runs.countP
          (fun k => (SpacyKey.lang k, SpacyKey.model k) = (lang, some m))
        ≤ (processRequests gdn cleanTxt reqs st0).runs.countP
            (fun x => x = SpacyKey.two lang (some m)) := by
          refine countP_le_countP _ _ _ ?_
          intro x _ hx
          cases x with
          | one l => simp [SpacyKey.lang, SpacyKey.model] at hx
          | two l mm =>
            simp only [SpacyKey.lang, SpacyKey.model, decide_eq_true_eq,
              Prod.mk.injEq] at hx
            simp [hx.1, hx.2]
      _ ≤ 1 := countP_le_one_of_nodup hinv.1 _
  · intro lang
    have hsplit : ∀ x ∈ (processRequests gdn cleanTxt reqs st0).runs,
        (fun k => decide ((SpacyKey.lang k, SpacyKey.model k) = (lang, none))) x = true →
        (fun y => decide (y = SpacyKey.one lang)) x = true ∨
        (fun y => decide (y = SpacyKey.two lang none)) x = true := by
      intro x _ hx
      cases x with
      | one l =>
        simp only [SpacyKey.lang, SpacyKey.model, decide_eq_true_eq,
          Prod.mk.injEq] at hx
        simp [hx.1]
      | two l mm =>
        simp only [SpacyKey.lang, SpacyKey.model, decide_eq_true_eq,
          Prod.mk.injEq] at hx
        simp [hx.1, hx.2]
    have h2 := countP_le_add_two (processRequests gdn cleanTxt reqs st0).runs _ _ _ hsplit
    have b1 := countP_le_one_of_nodup hinv.1 (SpacyKey.one lang)
    have b2 := countP_le_one_of_nodup hinv.1 (SpacyKey.two lang none)
    omega
  · intro st st' key ann heq
    rcases loadSpacyDoc_cases gdn cleanTxt st key with
      ⟨a, hl, hres⟩ | ⟨hl, ⟨e, nlps', hres⟩ | ⟨a, nlps', hres⟩⟩
    · rw [heq] at hres
      injection hres with ha hst
      injection ha with ha
      subst ha
      subst hst
      exact loadSpacyDoc_hit gdn cleanTxt st' key ann hl
    · rw [heq] at hres
      injection hres with ha _
      exact absurd ha (by simp)
    · rw [heq] at hres
      injection hres with ha hst
      injection ha with ha
      subst ha
      have hcached : annLookup st'.annCache key = some ann := by
        rw [hst]
        simp only
        rw [annLookup_append, hl]
        simp [annLookup]
      exact loadSpacyDoc_hit gdn cleanTxt st' key ann hcached

/-- Witness for C1 (amended): two repeats of the same call shape on a
fresh `Doc` run the model at most once for that shape. -/
theorem annotation_built_once_per_call_shape_witness :
    (SpacyCache.runs ⟨[], [], []⟩ = []) ∧
      ((processRequests (fun _ => .ok (fun _ => ⟨[], [], [], []⟩)) ""
          [SpacyKey.one "en", SpacyKey.one "en"] ⟨[], [], []⟩).runs.countP
            (fun x => x = SpacyKey.one "en") ≤ 1) :=
  ⟨rfl,
    (annotation_built_once_per_call_shape (fun _ => .ok (fun _ => ⟨[], [], [], []⟩)) ""
      [SpacyKey.one "en", SpacyKey.one "en"] ⟨[], [], []⟩ rfl).1 (SpacyKey.one "en")⟩

/-! ## C3 — pipeline execution order, context threading, last write wins -/

theorem lastAssoc_aux {α : Type} (l : List (String × α)) (n : String) (a : Option α) :
    l.foldl (fun acc p => if p.1 = n then some p.2 else acc) a =
      match lastAssoc l n with
      | some v => some v
      | none => a := by
  induction l generalizing a with
  | nil => simp [lastAssoc]
  | cons p rest ih =>
    simp only [lastAssoc, List.foldl_cons] at *
    by_cases hp : p.1 = n
    · rw [if_pos hp, if_pos hp, ih (some p.2)]
      cases hL : rest.foldl (fun acc q => if q.1 = n then some q.2 else acc) none <;>
        simp [hL]
    · rw [if_neg hp, if_neg hp]
      exact ih a

theorem dictLookup_foldl_insert {α : Type} (l : List (String × α)) (d : List (String × α))
    (n : String) :
    dictLookup (l.foldl (fun ops p => dictInsert ops p.1 p.2) d) n =
      match lastAssoc l n with
      | some v => some v
      | none => dictLookup d n := by
  induction l generalizing d with
  | nil => simp [lastAssoc]
  | cons p rest ih =>
    simp only [List.foldl_cons]
    rw [ih]
    by_cases hp : p.1 = n
    · have h1 : lastAssoc (p :: rest) n =
          match lastAssoc rest n with
          | some v => some v
          | none => some p.2 := by
        unfold lastAssoc
        simp only [List.foldl_cons, if_pos hp]
        exact lastAssoc_aux rest n (some p.2)
      rw [h1]
      cases hL : lastAssoc rest n with
      | some v => simp [hL]
      | none =>
        subst hp
        simp [hL, dictLookup_dictInsert_self]
    · have h1 : lastAssoc (p :: rest) n = lastAssoc rest n := by
        unfold lastAssoc
        simp only [List.foldl_cons, if_neg hp]
      rw [h1]
      cases hL : lastAssoc rest n with
      | some v => simp [hL]
      | none => simp [hL, dictLookup_dictInsert_ne _ _ _ _ (fun hh => hp hh.symm)]

theorem dictKeys_dictInsert {α : Type} (d : List (String × α)) (k : String) (v : α) :
    dictKeys (dictInsert d k v) =
      if k ∈ dictKeys d then dictKeys d else dictKeys d ++ [k] := by
  induction d with
  | nil => simp [dictInsert, dictKeys]
  | cons p rest ih =>
    by_cases hp : p.1 = k
    · simp [dictInsert, dictKeys, hp]
    · have hk' : ¬ k = p.1 := fun hh => hp hh.symm
      rw [show dictInsert (p :: rest) k v = p :: dictInsert rest k v from by
            simp [dictInsert, hp],
          show dictKeys (p :: dictInsert rest k v) = p.1 :: dictKeys (dictInsert rest k v)
            from rfl,
          ih,
          show dictKeys (p :: rest) = p.1 :: dictKeys rest from rfl]
      by_cases hk : k ∈ dictKeys rest
      · rw [if_pos hk, if_pos (by simp [hk])]
      · rw [if_neg hk, if_neg (by simp [hk, hk']), List.cons_append]

theorem dictKeys_foldl_insert {α : Type} (l : List (String × α)) (d : List (String × α)) :
    dictKeys (l.foldl (fun ops p => dictInsert ops p.1 p.2) d) =
      l.foldl (fun acc p => if p.1 ∈ acc then acc else acc ++ [p.1]) (dictKeys d) := by
  induction l generalizing d with
  | nil => rfl
  | cons p rest ih =>
    simp only [List.foldl_cons]
    rw [ih, dictKeys_dictInsert]

theorem applyEvents_eq_foldl {V : Type} (es : List (CallEvent V)) (init : Context V) :
    applyEvents init es =
      (es.map (fun e => (e.name, e.result))).foldl
        (fun ops p => dictInsert ops p.1 p.2) init := by
  induction es generalizing init with
  | nil => rfl
  | cons e rest ih => simp [applyEvents, ih]

theorem traceLoop_pairs {V : Type} (opRun : String → Option Kwargs → Context V → Kwargs → V)
    (ops : List (String × Kwargs)) (steps : List (String × Kwargs)) (data : Context V) :
    (pipelineCallTraceLoop opRun ops steps data).1.map (fun e => (e.name, e.settings)) =
      steps := by
  induction steps generalizing data with
  | nil => rfl
  | cons s rest ih =>
    obtain ⟨n, settings⟩ := s
    simp [pipelineCallTraceLoop, ih]

theorem traceLoop_final {V : Type} (opRun : String → Option Kwargs → Context V → Kwargs → V)
    (ops : List (String × Kwargs)) (steps : List (String × Kwargs)) (data : Context V) :
    (pipelineCallTraceLoop opRun ops steps data).2 =
      pipelineCallLoop opRun ops steps data := by
  induction steps generalizing data with
  | nil => rfl
  | cons s rest ih =>
    obtain ⟨n, settings⟩ := s
    simp [pipelineCallTraceLoop, pipelineCallLoop, ih]

theorem traceLoop_applyEvents {V : Type} (opRun : String → Option Kwargs → Context V → Kwargs → V)
    (ops : List (String × Kwargs)) (steps : List (String × Kwargs)) (data : Context V) :
    applyEvents data (pipelineCallTraceLoop opRun ops steps data).1 =
      pipelineCallLoop opRun ops steps data := by
  induction steps generalizing data with
  | nil => rfl
  | cons s rest ih =>
    obtain ⟨n, settings⟩ := s
    simp [pipelineCallTraceLoop, pipelineCallLoop, applyEvents, ih]

theorem traceLoop_context {V : Type} (opRun : String → Option Kwargs → Context V → Kwargs → V)
    (ops : List (String × Kwargs)) (steps : List (String × Kwargs)) (data : Context V)
    (i : Nat) (hi : i < (pipelineCallTraceLoop opRun ops steps data).1.length) :
    ((pipelineCallTraceLoop opRun ops steps data).1.get ⟨i, hi⟩).context =
      applyEvents data ((pipelineCallTraceLoop opRun ops steps data).1.take i) := by
  induction steps generalizing data i with
  | nil => simp [pipelineCallTraceLoop] at hi
  | cons s rest ih =>
    obtain ⟨n, settings⟩ := s
    cases i with
    | zero => simp [pipelineCallTraceLoop, applyEvents]
    | succ i =>
      have hi' : i < (pipelineCallTraceLoop opRun ops rest
          (dictInsert data n (opRun n (dictLookup ops n) data settings))).1.length := by
        simpa [pipelineCallTraceLoop] using hi
      simpa [pipelineCallTraceLoop, applyEvents] using
        ih (dictInsert data n (opRun n (dictLookup ops n) data settings)) i hi'

theorem traceLoop_ctorKwargs {V : Type} (opRun : String → Option Kwargs → Context V → Kwargs → V)
    (ops : List (String × Kwargs)) (steps : List (String × Kwargs)) (data : Context V) :
    ∀ e ∈ (pipelineCallTraceLoop opRun ops steps data).1,
      e.ctorKwargs = dictLookup ops e.name := by
  induction steps generalizing data with
  | nil => simp [pipelineCallTraceLoop]
  | cons s rest ih =>
    obtain ⟨n, settings⟩ := s
    intro e he
    simp only [pipelineCallTraceLoop, List.mem_cons] at he
    rcases he with rfl | he
    · rfl
    · exact ih _ e he

/-- C3: calling a pipeline executes its steps strictly in the declared
order with the declared per-step kwargs; each operation receives the
context dict accumulated from exactly the steps executed before it; the
returned dict is the final accumulated context, has one entry per step
name (keys in first-occurrence order), and at each name holds the
result of the last executed step with that name. -/
theorem pipeline_call_execution {V : Type}
    (opRun : String → Option Kwargs → Context V → Kwargs → V) (p : PipelineState) :
    ((pipelineCallTrace opRun p).1.map (fun e => (e.name, e.settings)) = p.steps) ∧
    (∀ i (hi : i < (pipelineCallTrace opRun p).1.length),
        ((pipelineCallTrace opRun p).1.get ⟨i, hi⟩).context =
          applyEvents [] ((pipelineCallTrace opRun p).1.take i)) ∧
    ((pipelineCallTrace opRun p).2 = pipelineCall opRun p) ∧
    (pipelineCall opRun p = applyEvents [] (pipelineCallTrace opRun p).1) ∧
    (∀ n, dictLookup (pipelineCall opRun p) n =
        lastEventResult (pipelineCallTrace opRun p).1 n) ∧
    (dictKeys (pipelineCall opRun p) = pyDictKeys (p.steps.map Prod.fst)) := by
  refine ⟨traceLoop_pairs opRun p.operations p.steps [], ?_, ?_, ?_, ?_, ?_⟩
  · exact fun i hi => traceLoop_context opRun p.operations p.steps [] i hi
  · exact traceLoop_final opRun p.operations p.steps []
  · exact (traceLoop_applyEvents opRun p.operations p.steps []).symm
  · intro n
    rw [show pipelineCall opRun p = applyEvents [] (pipelineCallTrace opRun p).1 from
        (traceLoop_applyEvents opRun p.operations p.steps []).symm]
    rw [applyEvents_eq_foldl, dictLookup_foldl_insert]
    unfold lastEventResult
    cases hL : lastAssoc ((pipelineCallTrace opRun p).1.map (fun e => (e.name, e.result))) n <;>
      simp [hL, dictLookup]
  · rw [show pipelineCall opRun p =
          applyEvents [] (pipelineCallTraceLoop opRun p.operations p.steps []).1 from
        (traceLoop_applyEvents opRun p.operations p.steps []).symm]
    rw [applyEvents_eq_foldl, dictKeys_foldl_insert]
    have hname : (pipelineCallTraceLoop opRun p.operations p.steps []).1.map (fun e => e.name)
        = p.steps.map Prod.fst := by
      have h := traceLoop_pairs opRun p.operations p.steps []
      calc (pipelineCallTraceLoop opRun p.operations p.steps []).1.map (fun e => e.name)
          = ((pipelineCallTraceLoop opRun p.operations p.steps []).1.map
              (fun e => (e.name, e.settings))).map Prod.fst := by rw [List.map_map]; rfl
        _ = p.steps.map Prod.fst := by rw [h]
    unfold pyDictKeys
    rw [← hname, List.foldl_map, List.foldl_map]
    rfl

/-- Witness for C3: on a concrete two-step pipeline, the execution
trace lists the declared steps in order. -/
theorem pipeline_call_execution_witness :
    (pipelineCallTrace (V := Nat) (fun _ _ _ _ => 7)
        { steps := [("Raw", []), ("NWords", [])],
          operations := [("Raw", []), ("NWords", [])],
          language := none, hintLanguage := none, kwargs := [] }).1.map
      (fun e => (e.name, e.settings)) = [("Raw", []), ("NWords", [])] :=
  (pipeline_call_execution (fun _ _ _ _ => 7)
    { steps := [("Raw", []), ("NWords", [])],
      operations := [("Raw", []), ("NWords", [])],
      language := none, hintLanguage := none, kwargs := [] }).1

/-! ## C4 — construction-time validation of step names -/

theorem pipelineInitLoop_ok_of_registered (registry : String → Bool)
    (steps : List StepInput) (st0 : PipelineState)
    (h : ∀ s ∈ steps, registry (normalizeStep s).1 = true) :
    ∃ st, pipelineInitLoop registry steps st0 = .ok st := by
  induction steps generalizing st0 with
  | nil => exact ⟨st0, rfl⟩
  | cons s rest ih =>
    have hs := h s (List.mem_cons_self s rest)
    simp only [pipelineInitLoop, hs, if_true]
    exact ih _ (fun s' hs' => h s' (List.mem_cons_of_mem s hs'))

theorem pipelineInitLoop_error_names (registry : String → Bool)
    (steps : List StepInput) (st0 : PipelineState) (n : String)
    (h : pipelineInitLoop registry steps st0 = .error n) :
    registry n = false ∧ n ∈ steps.map (fun s => (normalizeStep s).1) := by
  induction steps generalizing st0 with
  | nil => simp [pipelineInitLoop] at h
  | cons s rest ih =>
    by_cases hs : registry (normalizeStep s).1
    · simp only [pipelineInitLoop, hs, if_true] at h
      obtain ⟨h1, h2⟩ := ih _ h
      exact ⟨h1, by simp [h2]⟩
    · simp only [pipelineInitLoop, hs, if_false, Bool.false_eq_true] at h
      injection h with h
      subst h
      exact ⟨Bool.not_eq_true _ ▸ (by simpa using hs), by simp⟩

theorem pipelineInitLoop_error_of_missing (registry : String → Bool)
    (steps : List StepInput) (st0 : PipelineState)
    (h : ∃ s ∈ steps, registry (normalizeStep s).1 = false) :
    ∃ n, pipelineInitLoop registry steps st0 = .error n := by
  induction steps generalizing st0 with
  | nil => simp at h
  | cons s rest ih =>
    by_cases hs : registry (normalizeStep s).1
    · obtain ⟨s', hs', hmiss⟩ := h
      rcases List.mem_cons.1 hs' with rfl | hmem
      · rw [hmiss] at hs
        simp at hs
      · simp only [pipelineInitLoop, hs, if_true]
        exact ih _ ⟨s', hmem, hmiss⟩
    · exact ⟨(normalizeStep s).1, by simp [pipelineInitLoop, hs]⟩

/-- C4: constructing a pipeline resolves every declared step name
against the operation module immediately — if some step name has no
registered operation, construction fails with an attribute-style error
carrying an unregistered declared name, before any text is processed;
if every step name is registered, construction succeeds. -/
theorem pipeline_construction_validation (registry : String → Bool)
    (steps : List StepInput) (language hintLanguage : Option String) (kwargs : Kwargs) :
    ((∀ s ∈ steps, registry (normalizeStep s).1 = true) →
        ∃ st, pipelineInit registry steps language hintLanguage kwargs = .ok st) ∧
    (∀ n, pipelineInit registry steps language hintLanguage kwargs = .error n →
        registry n = false ∧ n ∈ steps.map (fun s => (normalizeStep s).1)) ∧
    ((∃ s ∈ steps, registry (normalizeStep s).1 = false) →
        ∃ n, pipelineInit registry steps language hintLanguage kwargs = .error n) :=
  ⟨fun h => pipelineInitLoop_ok_of_registered registry steps _ h,
   fun n h => pipelineInitLoop_error_names registry steps _ n h,
   fun h => pipelineInitLoop_error_of_missing registry steps _ h⟩

/-- Witness for C4: against the real attribute set of
`textpipe/operation.py`, steps `Raw, Bogus` fail construction naming
`Bogus`, and steps `Raw, NWords` construct. -/
theorem pipeline_construction_validation_witness :
    pipelineInit textpipeRegistry [.str "Raw", .str "Bogus"] none none [] = .error "Bogus" ∧
    (∃ st, pipelineInit textpipeRegistry [.str "Raw", .tup1 "NWords"] none none [] = .ok st) :=
  ⟨by rfl,
    (pipeline_construction_validation textpipeRegistry [.str "Raw", .tup1 "NWords"]
      none none []).1 (by decide)⟩

/-! ## C5 — save/load round trip of the declarative configuration -/

theorem pipelineInitLoop_ok_fields (registry : String → Bool) (steps : List StepInput)
    (st0 st : PipelineState) (h : pipelineInitLoop registry steps st0 = .ok st) :
    st.steps = st0.steps ++ steps.map normalizeStep ∧
    st.operations = (steps.map normalizeStep).foldl
      (fun ops p => dictInsert ops p.1 p.2) st0.operations ∧
    st.language = st0.language ∧
    st.hintLanguage = st0.hintLanguage ∧
    st.kwargs = st0.kwargs ∧
    (∀ s ∈ steps, registry (normalizeStep s).1 = true) := by
  induction steps generalizing st0 with
  | nil =>
    simp only [pipelineInitLoop] at h
    injection h with h
    subst h
    simp
  | cons s rest ih =>
    by_cases hs : registry (normalizeStep s).1
    · simp only [pipelineInitLoop, hs, if_true] at h
      obtain ⟨h1, h2, h3, h4, h5, h6⟩ := ih _ h
      refine ⟨?_, ?_, h3, h4, h5, ?_⟩
      · simpa [List.append_assoc] using h1
      · simpa using h2
      · intro s' hs'
        rcases List.mem_cons.1 hs' with rfl | hmem
        · exact hs
        · exact h6 s' hmem
    · simp [pipelineInitLoop, hs] at h

/-- C5: for every successfully constructed pipeline, loading the saved
form reconstructs a pipeline equal on every declarative field — the
normalized steps (deserialized as `[name, kwargs]` lists and
re-normalized), language, hint language, extra constructor kwargs — and
with the same operations, re-resolved from the registry rather than
deserialized. -/
theorem pipeline_save_load_roundtrip (registry : String → Bool) (steps : List StepInput)
    (language hintLanguage : Option String) (kwargs : Kwargs) (st : PipelineState)
    (h : pipelineInit registry steps language hintLanguage kwargs = .ok st) :
    pipelineLoad registry (pipelineSave st) = .ok st := by
  obtain ⟨h1, h2, h3, h4, h5, h6⟩ := pipelineInitLoop_ok_fields registry steps _ st h
  simp only [List.nil_append] at h1
  have hnorm : (st.steps.map (fun p => StepInput.tup2 p.1 p.2)).map normalizeStep = st.steps := by
    rw [List.map_map]
    have : (normalizeStep ∘ fun p : String × Kwargs => StepInput.tup2 p.1 p.2) = id := by
      funext p
      rfl
    rw [this, List.map_id]
  have hreg : ∀ s ∈ st.steps.map (fun p => StepInput.tup2 p.1 p.2),
      registry (normalizeStep s).1 = true := by
    intro s hs
    obtain ⟨p, hp, rfl⟩ := List.mem_map.1 hs
    rw [h1] at hp
    obtain ⟨s₀, hs₀, rfl⟩ := List.mem_map.1 hp
    simpa [normalizeStep] using h6 s₀ hs₀
  obtain ⟨st', hst'⟩ := pipelineInitLoop_ok_of_registered registry _
    { steps := [], operations := [], language := st.language,
      hintLanguage := st.hintLanguage, kwargs := st.kwargs } hreg
  obtain ⟨g1, g2, g3, g4, g5, _⟩ := pipelineInitLoop_ok_fields registry _ _ st' hst'
  simp only [List.nil_append] at g1
  have hsteq : st' = st := by
    have f1 : st'.steps = st.steps := by rw [g1, hnorm]
    have f2 : st'.operations = st.operations := by
      rw [g2, hnorm, h2, h1]
    obtain ⟨a1, a2, a3, a4, a5⟩ := st'
    obtain ⟨b1, b2, b3, b4, b5⟩ := st
    simp_all
  rw [hsteq] at hst'
  exact hst'

/-- Witness for C5 on the pipeline of the `Pipeline.save` doctest,
`Pipeline(['NSentences', ('CleanText', {'some': 'arg'})])`. -/
theorem pipeline_save_load_roundtrip_witness :
    pipelineInit textpipeRegistry
        [.str "NSentences", .tup2 "CleanText" [("some", .str "arg")]] none none [] =
      .ok { steps := [("NSentences", []), ("CleanText", [("some", JVal.str "arg")])],
            operations := [("NSentences", []), ("CleanText", [("some", JVal.str "arg")])],
            language := none, hintLanguage := none, kwargs := [] } ∧
    pipelineLoad textpipeRegistry (pipelineSave
        { steps := [("NSentences", []), ("CleanText", [("some", JVal.str "arg")])],
          operations := [("NSentences", []), ("CleanText", [("some", JVal.str "arg")])],
          language := none, hintLanguage := none, kwargs := [] }) =
      .ok { steps := [("NSentences", []), ("CleanText", [("some", JVal.str "arg")])],
            operations := [("NSentences", []), ("CleanText", [("some", JVal.str "arg")])],
            language := none, hintLanguage := none, kwargs := [] } :=
  ⟨by rfl,
    pipeline_save_load_roundtrip textpipeRegistry
      [.str "NSentences", .tup2 "CleanText" [("some", .str "arg")]] none none [] _ (by rfl)⟩

/-! ## C10 — a repeated step name runs the last-configured instance -/

/-- C10: when a step name occurs several times in the declared steps
with different kwargs, `_operations` holds exactly one instance for
that name, constructed from the kwargs of the last occurrence, and
every execution of a step with that name (also the earlier occurrences
in declared order) dispatches to that last-configured instance. -/
theorem repeated_name_uses_last_instance {V : Type} (registry : String → Bool)
    (steps : List StepInput) (language hintLanguage : Option String) (kwargs : Kwargs)
    (st : PipelineState) (opRun : String → Option Kwargs → Context V → Kwargs → V)
    (n : String)
    (h : pipelineInit registry steps language hintLanguage kwargs = .ok st) :
    (dictLookup st.operations n = lastKwargs st.steps n) ∧
    (∀ e ∈ (pipelineCallTrace opRun st).1, e.name = n →
        e.ctorKwargs = lastKwargs st.steps n) := by
  obtain ⟨h1, h2, _, _, _, _⟩ := pipelineInitLoop_ok_fields registry steps _ st h
  simp only [List.nil_append] at h1
  have hmain : dictLookup st.operations n = lastKwargs st.steps n := by
    rw [h2, ← h1, dictLookup_foldl_insert]
    unfold lastKwargs
    cases hL : lastAssoc st.steps n <;> simp [hL, dictLookup]
  refine ⟨hmain, ?_⟩
  intro e he hen
  have := traceLoop_ctorKwargs opRun st.operations st.steps [] e he
  rw [this, hen, hmain]

/-- Witness for C10: two `Raw` steps with different kwargs, where the
pipeline
resolves the single `Raw` instance to the kwargs of the last
occurrence and both executions dispatch to it. -/
theorem repeated_name_uses_last_instance_witness :
    pipelineInit textpipeRegistry
        [.tup2 "Raw" [("a", .int 1)], .tup2 "Raw" [("a", .int 2)]] none none [] =
      .ok { steps := [("Raw", [("a", JVal.int 1)]), ("Raw", [("a", JVal.int 2)])],
            operations := [("Raw", [("a", JVal.int 2)])],
            language := none, hintLanguage := none, kwargs := [] } ∧
    ((dictLookup
        (PipelineState.operations
          { steps := [("Raw", [("a", JVal.int 1)]), ("Raw", [("a", JVal.int 2)])],
            operations := [("Raw", [("a", JVal.int 2)])],
            language := none, hintLanguage := none, kwargs := [] }) "Raw" =
      lastKwargs
        (PipelineState.steps
          { steps := [("Raw", [("a", JVal.int 1)]), ("Raw", [("a", JVal.int 2)])],
            operations := [("Raw", [("a", JVal.int 2)])],
            language := none, hintLanguage := none, kwargs := [] }) "Raw") ∧
     (∀ e ∈ (pipelineCallTrace (V := Nat) (fun _ _ _ _ => 0)
          { steps := [("Raw", [("a", JVal.int 1)]), ("Raw", [("a", JVal.int 2)])],
            operations := [("Raw", [("a", JVal.int 2)])],
            language := none, hintLanguage := none, kwargs := [] }).1, e.name = "Raw" →
        e.ctorKwargs = lastKwargs
          (PipelineState.steps
            { steps := [("Raw", [("a", JVal.int 1)]), ("Raw", [("a", JVal.int 2)])],
              operations := [("Raw", [("a", JVal.int 2)])],
              language := none, hintLanguage := none, kwargs := [] }) "Raw")) :=
  ⟨by rfl,
    repeated_name_uses_last_instance textpipeRegistry
      [.tup2 "Raw" [("a", .int 1)], .tup2 "Raw" [("a", .int 2)]] none none [] _
      (fun _ _ _ _ => 0) "Raw" (by rfl)⟩

end Textpipe
